import Mathlib

/-!
Verification of the geoip archive lifecycle / hot-swap subsystem.

Shallow embedding of the Rust sources:
  - `src/state/files.rs`    (FileService: discovery, naming, cleanup, refresh)
  - `src/state/maxmind.rs`  (MaxMindService: download, update, status, cleanup, GC)
  - `src/state/timezones.rs` (TimezoneService: TZif suffix extraction)
  - `src/model/files.rs`, `src/model/geoip.rs` (data model)

Pure functions are translated directly; the stateful update/refresh paths are
modelled as explicit state-passing functions over a filesystem map and a
per-tag archive index, with the HTTP exchange supplied as an explicit
response value.  Times are UTC civil datetimes; duration arithmetic is done
in integer seconds (the Rust code compares `f64` second counts obtained from
integral `TimeDelta`s, which are exact for these magnitudes).
-/

namespace GeoIp

/-! ### Characters and digits -/

/-- Character class `[A-Za-z0-9-]` of the archive-name regex in
`files.rs` (`ARCHIVE_NAME_PATTERN`) and `maxmind.rs` (`MMDB_FILENAME_PATTERN`). -/
def isTagChar (c : Char) : Bool :=
  (65 ≤ c.toNat && c.toNat ≤ 90) || (97 ≤ c.toNat && c.toNat ≤ 122) ||
  (48 ≤ c.toNat && c.toNat ≤ 57) || c == '-'

/-- Character class `[0-9]`. -/
def isDigitChar (c : Char) : Bool :=
  48 ≤ c.toNat && c.toNat ≤ 57

/-- Numeric value of a decimal digit character. -/
def digitVal (c : Char) : Nat := c.toNat - 48

/-- The decimal digit character for `n < 10`. -/
def digitChar (n : Nat) : Char := Char.ofNat (48 + n)

/-! ### UTC civil datetimes (chrono `DateTime<Utc>` at second precision) -/

/-- A UTC civil datetime, the model of chrono `DateTime<Utc>` at second
precision (sub-second parts play no role in the verified code paths). -/
structure UtcDateTime where
  year : Nat
  month : Nat
  day : Nat
  hour : Nat
  minute : Nat
  second : Nat
deriving DecidableEq, Repr

/-- Proleptic Gregorian leap year, as used by chrono. -/
def isLeapYear (y : Nat) : Bool :=
  y % 4 == 0 && (y % 100 != 0 || y % 400 == 0)

/-- Days in a month of the proleptic Gregorian calendar. -/
def daysInMonth (y m : Nat) : Nat :=
  if m = 2 then (if isLeapYear y then 29 else 28)
  else if m = 4 ∨ m = 6 ∨ m = 9 ∨ m = 11 then 30
  else 31

/-- Validity of a civil datetime, matching what chrono accepts when building
a `NaiveDateTime` from parsed fields.  `second ≤ 60` admits chrono's
leap-second representation, which `%S` both parses and prints. -/
def UtcDateTime.isValid (dt : UtcDateTime) : Bool :=
  1 ≤ dt.month && dt.month ≤ 12 && 1 ≤ dt.day && dt.day ≤ daysInMonth dt.year dt.month &&
  dt.hour ≤ 23 && dt.minute ≤ 59 && dt.second ≤ 60

/-- Days from 1970-01-01 to the given civil date (Howard Hinnant's
`days_from_civil`, the arithmetic underlying chrono's calendar). -/
def daysFromCivil (y : Int) (m d : Nat) : Int :=
  let yAdj : Int := if m ≤ 2 then y - 1 else y
  let era : Int := (if 0 ≤ yAdj then yAdj else yAdj - 399) / 400
  let yoe : Int := yAdj - era * 400
  let mp : Int := if 2 < m then (m : Int) - 3 else (m : Int) + 9
  let doy : Int := (153 * mp + 2) / 5 + (d : Int) - 1
  let doe : Int := yoe * 365 + yoe / 4 - yoe / 100 + doy
  era * 146097 + doe - 719468

/-- Seconds since the Unix epoch of a UTC civil datetime
(chrono `DateTime::timestamp`). -/
def UtcDateTime.toEpochSecs (dt : UtcDateTime) : Int :=
  daysFromCivil (dt.year : Int) dt.month dt.day * 86400 +
    (dt.hour : Int) * 3600 + (dt.minute : Int) * 60 + (dt.second : Int)

/-- Two-digit zero-padded decimal rendering. -/
def pad2 (n : Nat) : List Char := [digitChar (n / 10 % 10), digitChar (n % 10)]

/-- Four-digit zero-padded decimal rendering (chrono `%Y` for years
0 through 9999, the only years whose rendering is 4 digits). -/
def pad4 (n : Nat) : List Char :=
  [digitChar (n / 1000 % 10), digitChar (n / 100 % 10), digitChar (n / 10 % 10),
    digitChar (n % 10)]

/-- chrono format `%Y%m%d%H%M%S` (`TIMESTAMP_FORMAT` in `files.rs`),
for years 0 through 9999. -/
def formatTimestamp (dt : UtcDateTime) : List Char :=
  pad4 dt.year ++ pad2 dt.month ++ pad2 dt.day ++ pad2 dt.hour ++ pad2 dt.minute ++
    pad2 dt.second

/-- chrono `NaiveDateTime::parse_from_str` with format `%Y%m%d%H%M%S` on a
14-character digit string: `%Y` consumes at most 4 digits, each later field
exactly 2, and the resulting fields must form a valid datetime. -/
def parseTimestamp (cs : List Char) : Option UtcDateTime :=
  match cs with
  | [y1, y2, y3, y4, mo1, mo2, d1, d2, h1, h2, mi1, mi2, s1, s2] =>
    if ([y1, y2, y3, y4, mo1, mo2, d1, d2, h1, h2, mi1, mi2, s1, s2].all isDigitChar) then
      let dt : UtcDateTime :=
        { year := ((digitVal y1 * 10 + digitVal y2) * 10 + digitVal y3) * 10 + digitVal y4
          month := digitVal mo1 * 10 + digitVal mo2
          day := digitVal d1 * 10 + digitVal d2
          hour := digitVal h1 * 10 + digitVal h2
          minute := digitVal mi1 * 10 + digitVal mi2
          second := digitVal s1 * 10 + digitVal s2 }
      if dt.isValid then some dt else none
    else none
  | _ => none

/-! ### Archive filename pattern

`ARCHIVE_NAME_PATTERN` in `files.rs` is the anchored regex
`^([A-Za-z0-9-]+)-([0-9]{14})\.tar.gz$` (note: the dot between `tar` and
`gz` is unescaped, so it matches any character except a newline).  Because
group 2 and the literal tail have fixed width, a match decomposes the name
uniquely as `tag ++ "-" ++ ts ++ "." ++ "tar" ++ c ++ "gz"`; the matcher
below works on the reversed character list to exploit this. -/

/-- Shared tail of both filename regexes: given the reversed remainder after
the suffix, extract `(reversed tag, reversed 14-digit timestamp)`. -/
def matchTagTsRev (rest : List Char) : Option (List Char × List Char) :=
  let tsRev := rest.take 14
  let rest2 := rest.drop 14
  if tsRev.length = 14 && tsRev.all isDigitChar then
    match rest2 with
    | '-' :: tagRev =>
      if !tagRev.isEmpty && tagRev.all isTagChar then some (tagRev, tsRev) else none
    | _ => none
  else none

/-- Matcher for `^([A-Za-z0-9-]+)-([0-9]{14})\.tar.gz$` on the reversed
character list of a file name. -/
def matchArchiveNameRev (rcs : List Char) : Option (List Char × List Char) :=
  match rcs with
  | 'z' :: 'g' :: c :: 'r' :: 'a' :: 't' :: '.' :: rest =>
    if c = '\n' then none else matchTagTsRev rest
  | _ => none

/-- Capture groups `(tag, timestamp)` of `ARCHIVE_NAME_PATTERN` on a file
name, or `none` when the name does not match. -/
def matchArchiveName (s : String) : Option (String × String) :=
  (matchArchiveNameRev s.data.reverse).map fun p =>
    (String.mk p.1.reverse, String.mk p.2.reverse)

/-- `files.rs archive_info_from_path`, restricted to its pure part: match the
file name against `ARCHIVE_NAME_PATTERN` and parse the captured timestamp
with `%Y%m%d%H%M%S`.  (The `utime` side-file read is handled by the caller
model.) -/
def archiveInfoFromFileName (s : String) : Option (String × UtcDateTime) :=
  (matchArchiveName s).bind fun p => (parseTimestamp p.2.data).map fun dt => (p.1, dt)

/-! ### HTTP-date and RFC 2822 renderings -/

/-- Day-of-week index (0 = Sunday) of a civil date, via days since the epoch
(1970-01-01 was a Thursday). -/
def weekdayIndex (dt : UtcDateTime) : Nat :=
  ((daysFromCivil (dt.year : Int) dt.month dt.day + 4) % 7).toNat

/-- Three-letter English weekday abbreviation. -/
def weekdayAbbrev (i : Nat) : String :=
  match i with
  | 0 => "Sun" | 1 => "Mon" | 2 => "Tue" | 3 => "Wed"
  | 4 => "Thu" | 5 => "Fri" | 6 => "Sat" | _ => "Sun"

/-- Three-letter English month abbreviation. -/
def monthAbbrev (m : Nat) : String :=
  match m with
  | 1 => "Jan" | 2 => "Feb" | 3 => "Mar" | 4 => "Apr" | 5 => "May" | 6 => "Jun"
  | 7 => "Jul" | 8 => "Aug" | 9 => "Sep" | 10 => "Oct" | 11 => "Nov" | _ => "Dec"

/-- Two-digit zero-padded string. -/
def pad2Str (n : Nat) : String := String.mk (pad2 n)

/-- Four-digit zero-padded string. -/
def pad4Str (n : Nat) : String := String.mk (pad4 n)

/-- `httpdate::fmt_http_date`: the IMF-fixdate HTTP-date rendering, e.g.
`Mon, 01 Apr 2024 00:00:00 GMT`.  Used by `files.rs refresh_archive` for the
`If-Modified-Since` header. -/
def fmtHttpDate (dt : UtcDateTime) : String :=
  weekdayAbbrev (weekdayIndex dt) ++ ", " ++ pad2Str dt.day ++ " " ++ monthAbbrev dt.month ++
    " " ++ pad4Str dt.year ++ " " ++ pad2Str dt.hour ++ ":" ++ pad2Str dt.minute ++ ":" ++
    pad2Str dt.second ++ " GMT"

/-- chrono `DateTime<Utc>::to_rfc2822`: like IMF-fixdate but the zone is the
numeric offset `+0000`, e.g. `Mon, 01 Apr 2024 00:00:00 +0000`.  Used by
`maxmind.rs download` for the `If-Modified-Since` header. -/
def toRfc2822Utc (dt : UtcDateTime) : String :=
  weekdayAbbrev (weekdayIndex dt) ++ ", " ++ pad2Str dt.day ++ " " ++ monthAbbrev dt.month ++
    " " ++ pad4Str dt.year ++ " " ++ pad2Str dt.hour ++ ":" ++ pad2Str dt.minute ++ ":" ++
    pad2Str dt.second ++ " +0000"

/-! ### FileService refresh (`files.rs refresh_archive`) -/

/-- `model/files.rs ArchiveFileInfo` (paths are file names inside the data
directory). -/
structure ArchiveFileInfo where
  tag : String
  path : String
  mtime : UtcDateTime
  utime : UtcDateTime
deriving DecidableEq, Repr

/-- `files.rs FileServiceError`. -/
inductive FileServiceError where
  | io (msg : String)
  | reqwest (msg : String)
deriving DecidableEq, Repr

/-- The upstream HTTP exchange as seen by `refresh_archive`: either a
transport failure or a status code with the parsed `Last-Modified` header
(`none` when absent or unparseable) and a body length. -/
inductive ArchiveHttpResponse where
  | transportErr (msg : String)
  | status (code : Nat) (lastModified : Option UtcDateTime) (bodyLen : Nat)
deriving DecidableEq, Repr

/-- Result of one `refresh_archive` call: whether the GET was sent, which
`If-Modified-Since` header it carried, the returned value, and the archive
index entry for the tag afterwards. -/
structure RefreshOutcome where
  networkCalled : Bool
  imsHeader : Option String
  result : Except FileServiceError (Option ArchiveFileInfo)
  archState : Option ArchiveFileInfo
deriving Repr

/-- Network part of `refresh_archive` (after the fast-skip check):
`send` + `error_for_status` (client and server errors, 400–599, fail),
then the `304` branch (`set_refresh_timestamp`, which bumps `utime` only if
the entry exists and its `utime` is older), else the download branch, which
names the new archive `<tag>-<mtime %Y%m%d%H%M%S>.tar.gz` with
`mtime = Last-Modified or now`, sets `utime = now` and publishes the new
entry via `rcu`. -/
def refreshArchiveNet (current : Option ArchiveFileInfo) (tag : String)
    (now : UtcDateTime) (ims : Option String) (resp : ArchiveHttpResponse) :
    RefreshOutcome :=
  match resp with
  | .transportErr m => ⟨true, ims, .error (.reqwest m), current⟩
  | .status code lastModified _ =>
    if 400 ≤ code ∧ code ≤ 599 then
      ⟨true, ims, .error (.reqwest ("HTTP status " ++ pad4Str code)), current⟩
    else if code = 304 then
      let st2 := match current with
        | some info =>
          if info.utime.toEpochSecs < now.toEpochSecs then
            some { info with utime := now }
          else current
        | none => current
      ⟨true, ims, .ok none, st2⟩
    else
      let mtime := lastModified.getD now
      let newInfo : ArchiveFileInfo :=
        { tag := tag
          path := tag ++ "-" ++ String.mk (formatTimestamp mtime) ++ ".tar.gz"
          mtime := mtime
          utime := now }
      ⟨true, ims, .ok (some newInfo), some newInfo⟩

/-- `files.rs refresh_archive` for one tag, as a function of the current
archive-index entry, the current time, the refresh interval in seconds, and
the upstream response.  The fast-skip compares
`now.signed_duration_since(utime)` against the interval (both integral
second counts, compared exactly as `f64`s in the code); the
`If-Modified-Since` header carries `httpdate::fmt_http_date(mtime)` and is
added only when a current version exists. -/
def refreshArchive (current : Option ArchiveFileInfo) (tag : String)
    (now : UtcDateTime) (intervalSecs : Int) (resp : ArchiveHttpResponse) :
    RefreshOutcome :=
  match current with
  | some info =>
    if now.toEpochSecs - info.utime.toEpochSecs < intervalSecs then
      ⟨false, none, .ok none, current⟩
    else
      refreshArchiveNet current tag now (some (fmtHttpDate info.mtime)) resp
  | none => refreshArchiveNet current tag now none resp

/-! ### Path name helpers (Rust `std::path`) -/

/-- `Path::file_name` for the relevant cases: the component after the last
`/` (trailing slashes ignored); `none` for an empty result or for the
special components `.` and `..`. -/
def rustFileName (p : String) : Option String :=
  let comps := p.data.reverse.dropWhile (fun c => c == '/')
  let name := (comps.takeWhile (fun c => c != '/')).reverse
  if name.isEmpty || name == ['.'] || name == ['.', '.'] then none else some (String.mk name)

/-- `Path::extension` on a file name: the part after the last `.`, provided
that dot is not the leading character; `none` when there is no such dot. -/
def extensionOf (name : String) : Option String :=
  let r := name.data.reverse
  if r.contains '.' then
    let ext := r.takeWhile (fun c => c != '.')
    if ext.length + 1 = name.data.length then none else some (String.mk ext.reverse)
  else none

/-- `Path::extension` on a full path. -/
def pathExtension (p : String) : Option String :=
  (rustFileName p).bind extensionOf

/-- The stem of a file name: the name without its extension (and without the
dot), or the whole name when there is no extension. -/
def stemOf (name : String) : String :=
  match extensionOf name with
  | some ext => String.mk (name.data.take (name.data.length - ext.data.length - 1))
  | none => name

/-- `Path::with_extension` on a bare file name: replace (or add) the
extension.  Used by `maxmind.rs load` and `update` to locate the `.tar.gz`
next to a `.mmdb`. -/
def withExtension (name ext : String) : String :=
  stemOf name ++ "." ++ ext

/-- `Path::with_added_extension` on a bare file name: append a further
extension after the existing one.  Used by `maxmind.rs cleanup`. -/
def withAddedExtension (name ext : String) : String :=
  name ++ "." ++ ext

/-! ### Filesystem directory model

The data directory as a finite map from file name to file size, represented
as an association list with earlier entries shadowing later ones. -/

/-- File size lookup (`fs::metadata(..).len()`). -/
def fsLookup (fs : List (String × Nat)) (name : String) : Option Nat :=
  (fs.find? (fun f => f.1 == name)).map (·.2)

/-- Remove a file (`fs::remove_file`). -/
def fsRemove (fs : List (String × Nat)) (name : String) : List (String × Nat) :=
  fs.filter (fun f => f.1 != name)

/-- Create or overwrite a file (`NamedTempFile::persist` onto the canonical
name). -/
def fsUpsert (fs : List (String × Nat)) (name : String) (size : Nat) :
    List (String × Nat) :=
  (name, size) :: fsRemove fs name

/-! ### MaxMindService (`maxmind.rs`) -/

/-- The metadata of an opened MaxMind database
(`maxminddb::Reader` metadata fields used or available to the service). -/
structure MmReaderMeta where
  databaseType : String
  buildEpoch : Nat
  languages : List String
deriving DecidableEq, Repr

/-- `maxmind.rs MaxMindDbReader`. -/
structure MaxMindDbReader where
  path : String
  meta : MmReaderMeta
  fileSize : Nat
  archiveFileSize : Option Nat
deriving DecidableEq, Repr

/-- `maxmind.rs MaxMindServiceError`. -/
inductive MaxMindServiceError where
  | io (msg : String)
  | maxMindDb (msg : String)
  | reqwest (msg : String)
  | joinError (msg : String)
  | unknownEdition
  | missingDatabase
  | httpError (code : Nat)
deriving DecidableEq, Repr

/-- The `Display` rendering of a `MaxMindServiceError` (`thiserror`):
transparent wrappers show the inner message. -/
def mmErrMsg : MaxMindServiceError → String
  | .io m => m
  | .maxMindDb m => m
  | .reqwest m => m
  | .joinError m => m
  | .unknownEdition => "Unknown MaxMind database edition"
  | .missingDatabase => "MaxMind database is missing"
  | .httpError c => "HTTP error (status=" ++ toString c ++ ")"

/-- State of the MaxMind service: the per-edition reader slots (a key exists
for every configured edition), the per-edition error slots, and the data
directory. -/
structure MmState where
  readers : String → Option MaxMindDbReader
  errors : String → Option String
  fsFiles : List (String × Nat)

/-- Matcher for `MMDB_FILENAME_PATTERN`, the anchored regex
`^([A-Za-z0-9-]+)-([0-9]{14}).mmdb$` of `maxmind.rs` (the dot before `mmdb`
is unescaped and matches any character except a newline). -/
def matchMmdbNameRev (rcs : List Char) : Option (List Char × List Char) :=
  match rcs with
  | 'b' :: 'd' :: 'm' :: 'm' :: c :: rest =>
    if c = '\n' then none else matchTagTsRev rest
  | _ => none

/-- `maxmind.rs parse_edition_and_mtime_from_path` on a file name: match
`MMDB_FILENAME_PATTERN` and parse the timestamp with `%Y%m%d%H%M%S`. -/
def parseEditionAndMtimeFromName (s : String) : Option (String × UtcDateTime) :=
  (matchMmdbNameRev s.data.reverse).bind fun p =>
    (parseTimestamp p.2.reverse).map fun dt => (String.mk p.1.reverse, dt)

/-- `maxmind.rs get_edition_mtime`: the mtime parsed from the current
reader's file name, when a reader is published and its name matches. -/
def getEditionMtime (st : MmState) (edition : String) : Option UtcDateTime :=
  (st.readers edition).bind fun r => (parseEditionAndMtimeFromName r.path).map (·.2)

/-- A member of the downloaded tar archive. -/
structure TarEntry where
  path : String
  size : Nat
deriving DecidableEq, Repr

/-- `maxmind.rs extract_mmdb` selection: the first tar member whose filename
extension is `mmdb`. -/
def findMmdbEntry (entries : List TarEntry) : Option TarEntry :=
  entries.find? (fun e => pathExtension e.path == some "mmdb")

/-- The upstream HTTP exchange as seen by `maxmind.rs download`: a transport
failure, or a status with the parsed `Last-Modified` (RFC 2822; `none` when
absent or unparseable), the gunzipped tar members of the body (`none` when
the body is not a valid gzipped tar), and the body length. -/
inductive MmHttpResponse where
  | transportErr (msg : String)
  | status (code : Nat) (lastModified : Option UtcDateTime)
      (entries : Option (List TarEntry)) (bodyLen : Nat)
deriving DecidableEq, Repr

/-- Result of `maxmind.rs download`: the `If-Modified-Since` header of the
GET, the returned value (`none` = unchanged or no mmdb member; `some` = the
extracted mmdb file name), and the data directory afterwards. -/
structure MmDownloadOut where
  imsHeader : Option String
  result : Except MaxMindServiceError (Option String)
  fsFiles : List (String × Nat)

/-- `maxmind.rs make_archive_path` (file name within the data directory). -/
def makeArchiveName (edition : String) (lastModified : UtcDateTime) : String :=
  edition ++ "-" ++ String.mk (formatTimestamp lastModified) ++ ".tar.gz"

/-- `maxmind.rs make_mmdb_path` (file name within the data directory). -/
def makeMmdbName (edition : String) (lastModified : UtcDateTime) : String :=
  edition ++ "-" ++ String.mk (formatTimestamp lastModified) ++ ".mmdb"

/-- `maxmind.rs download`: sends `If-Modified-Since: <mtime as RFC 2822>`
when a current mtime is known; `304` returns `None`; non-2xx fails with
`HttpError`; otherwise the body is persisted under the canonical archive
name, and `extract_mmdb` unpacks the first `mmdb` member (returning `None`
when there is none, an io error when the body is not a gzipped tar). -/
def mmDownload (edition : String) (mtime : Option UtcDateTime)
    (now : UtcDateTime) (fs : List (String × Nat)) (resp : MmHttpResponse) :
    MmDownloadOut :=
  let ims := mtime.map toRfc2822Utc
  match resp with
  | .transportErr m => ⟨ims, .error (.reqwest m), fs⟩
  | .status code lastModified entries bodyLen =>
    if code = 304 then ⟨ims, .ok none, fs⟩
    else if ¬ (200 ≤ code ∧ code ≤ 299) then ⟨ims, .error (.httpError code), fs⟩
    else
      let lm := lastModified.getD now
      let archiveName := makeArchiveName edition lm
      let mmdbName := makeMmdbName edition lm
      let fs1 := fsUpsert fs archiveName bodyLen
      match entries with
      | none => ⟨ims, .error (.io "archive entries"), fs1⟩
      | some es =>
        match findMmdbEntry es with
        | some e => ⟨ims, .ok (some mmdbName), fsUpsert fs1 mmdbName e.size⟩
        | none => ⟨ims, .ok none, fs1⟩

/-- Publish a reader into its slot. -/
def setReader (readers : String → Option MaxMindDbReader) (edition : String)
    (r : Option MaxMindDbReader) : String → Option MaxMindDbReader :=
  fun e => if e = edition then r else readers e

/-- `maxmind.rs update` for one edition: resolves the slot (error
`UnknownEdition` when the edition is not configured), downloads, and on a
new mmdb path reads the file sizes, opens the database via mmap (modelled by
the `openMmap` oracle taking the file name), on failure deletes the bad
mmdb and propagates the error leaving the reader slot untouched, on success
swaps the slot to the new reader (the superseded reader goes to the
deferred GC, modelled separately). -/
def mmUpdate (editions : List String) (st : MmState) (edition : String)
    (now : UtcDateTime) (resp : MmHttpResponse)
    (openMmap : String → Except String MmReaderMeta) :
    MmState × Except MaxMindServiceError Unit :=
  if edition ∈ editions then
    let d := mmDownload edition (getEditionMtime st edition) now st.fsFiles resp
    match d.result with
    | .error e => ({ st with fsFiles := d.fsFiles }, .error e)
    | .ok none => ({ st with fsFiles := d.fsFiles }, .ok ())
    | .ok (some path) =>
      match fsLookup d.fsFiles path with
      | none => ({ st with fsFiles := d.fsFiles }, .error (.io "metadata"))
      | some fileSize =>
        let archiveFileSize := fsLookup d.fsFiles (withExtension path "tar.gz")
        match openMmap path with
        | .error msg =>
          ({ st with fsFiles := fsRemove d.fsFiles path }, .error (.maxMindDb msg))
        | .ok meta =>
          ({ st with
              fsFiles := d.fsFiles
              readers := setReader st.readers edition
                (some ⟨path, meta, fileSize, archiveFileSize⟩) }, .ok ())
  else (st, .error .unknownEdition)

/-- One edition of `maxmind.rs update_all`: skip when the current reader's
mtime is younger than the auto-update interval (leaving the error slot
untouched), otherwise run `update` and store its outcome into the edition's
error slot (`None` on success, the error's message on failure). -/
def mmUpdateAllStep (editions : List String) (st : MmState) (edition : String)
    (now : UtcDateTime) (intervalSecs : Int) (resp : MmHttpResponse)
    (openMmap : String → Except String MmReaderMeta) : MmState :=
  let skip := match getEditionMtime st edition with
    | some mt => decide (now.toEpochSecs - mt.toEpochSecs < intervalSecs)
    | none => false
  if skip then st
  else
    let (st1, res) := mmUpdate editions st edition now resp openMmap
    { st1 with
        errors := fun e =>
          if e = edition then
            (match res with
             | .ok _ => none
             | .error err => some (mmErrMsg err))
          else st1.errors e }

/-- `maxmind.rs cleanup`: remove the outdated mmdb file and the path
obtained from it by `with_added_extension("tar.gz")`. -/
def mmCleanup (path : String) (fs : List (String × Nat)) : List (String × Nat) :=
  fsRemove (fsRemove fs path) (withAddedExtension path "tar.gz")

/-- `model/geoip.rs GeoIpDatabaseStatus` as constructed by
`maxmind.rs get_edition_status` (the copy of the struct in `model/geoip.rs`
declares only `edition` and `timestamp`; the constructor in `maxmind.rs`
fills the five fields below, and neither carries locales or a last-check
time).  `timestamp` is the reader's `build_epoch` through
`DateTime::from_timestamp_secs`, kept here as epoch seconds. -/
structure GeoIpDatabaseStatus where
  edition : String
  timestamp : Option Nat
  fileSize : Option Nat
  archiveFileSize : Option Nat
  error : Option String
deriving DecidableEq, Repr

/-- chrono `DateTime::from_timestamp_secs` on a non-negative `u64` cast to
`i64`: defined for timestamps up to chrono's maximum datetime
(year 262143). -/
def fromTimestampSecs (n : Nat) : Option Nat :=
  if (n : Int) ≤ daysFromCivil 262143 12 31 * 86400 + 86399 then some n else none

/-- `maxmind.rs get_edition_status`. -/
def getEditionStatus (st : MmState) (edition : String) : GeoIpDatabaseStatus :=
  let base : GeoIpDatabaseStatus :=
    match st.readers edition with
    | some r =>
      { edition := edition
        timestamp := fromTimestampSecs r.meta.buildEpoch
        fileSize := some r.fileSize
        archiveFileSize := r.archiveFileSize
        error := none }
    | none =>
      { edition := edition, timestamp := none, fileSize := none,
        archiveFileSize := none, error := none }
  { base with error := st.errors edition }

/-- `maxmind.rs status`: one record per configured edition, in order. -/
def mmStatus (editions : List String) (st : MmState) : List GeoIpDatabaseStatus :=
  editions.map (getEditionStatus st)

/-! ### FileService cleanup (`files.rs cleanup_archive`) -/

/-- Rust `str::starts_with` on string slices (byte-prefix, equivalently
character-prefix for valid UTF-8). -/
def strStartsWith (s pre : String) : Bool := pre.data.isPrefixOf s.data

/-- `files.rs cleanup_data_dir`: remove every directory entry whose name
starts with the given prefix, skipping the `ignore` path (removed separately
by the caller).  Errors are logged and do not stop the scan. -/
def cleanupDataDir (pre : String) (ignorePath : String) (fs : List (String × Nat)) :
    List (String × Nat) :=
  fs.filter (fun f => f.1 == ignorePath || !(strStartsWith f.1 pre))

/-- `files.rs cleanup_archive`: sweep the data directory for entries whose
name starts with `<tag>-<mtime %Y%m%d%H%M%S>` (skipping the archive itself),
then remove the archive file. -/
def cleanupArchive (info : ArchiveFileInfo) (fs : List (String × Nat)) :
    List (String × Nat) :=
  let pre := info.tag ++ "-" ++ String.mk (formatTimestamp info.mtime)
  fsRemove (cleanupDataDir pre info.path fs) info.path

/-! ### Startup discovery (`files.rs find_and_cleanup_archives`) -/

/-- `files.rs find_and_cleanup_archive_by_dir_entry`: insert a discovered
version into the per-tag map; on a duplicate tag keep the version with the
larger mtime and hand the other to `cleanup_archive` (collected here in a
list). -/
def discoverStep (acc : (String → Option ArchiveFileInfo) × List ArchiveFileInfo)
    (e : ArchiveFileInfo) : (String → Option ArchiveFileInfo) × List ArchiveFileInfo :=
  match acc.1 e.tag with
  | none => (fun t => if t = e.tag then some e else acc.1 t, acc.2)
  | some old =>
    if old.mtime.toEpochSecs < e.mtime.toEpochSecs then
      (fun t => if t = e.tag then some e else acc.1 t, old :: acc.2)
    else (acc.1, e :: acc.2)

/-- `files.rs find_and_cleanup_archives_by_read_dir`: fold the discovery
step over the directory entries; returns the published per-tag index and the
versions that were cleaned up. -/
def findAndCleanupArchives (entries : List ArchiveFileInfo) :
    (String → Option ArchiveFileInfo) × List ArchiveFileInfo :=
  entries.foldl discoverStep ((fun _ => none), [])

/-- `files.rs archive_info_from_path` including the `utime` side-file read
(`sideUtime tag` is the parsed `<tag>.timestamp` content; missing or
unparseable defaults `utime` to `mtime`). -/
def archiveEntryOfName (sideUtime : String → Option UtcDateTime) (n : String) :
    Option ArchiveFileInfo :=
  (archiveInfoFromFileName n).map fun p =>
    { tag := p.1, path := n, mtime := p.2, utime := (sideUtime p.1).getD p.2 }

/-- Startup discovery from the data directory listing. -/
def discoverFromNames (sideUtime : String → Option UtcDateTime) (names : List String) :
    (String → Option ArchiveFileInfo) × List ArchiveFileInfo :=
  findAndCleanupArchives (names.filterMap (archiveEntryOfName sideUtime))

/-! ### Deferred GC protocol

`maxmind.rs wait_unused_and_cleanup` (and the task spawned at the end of
`files.rs refresh_archive`) supersede a handle by downgrading their own
strong `Arc` reference to a `Weak`, dropping it, and then sleeping in a loop
while `Weak::upgrade` still succeeds; cleanup runs only after the loop
exits.  `Weak::upgrade` succeeds exactly while the strong count is
positive, so the protocol is the following transition system over the
handle's strong count (held by in-flight requests) and a cleaned flag. -/

/-- State of the deferred GC of one superseded handle: `strong` is the
number of strong references still held by requests that obtained the handle
before the swap; `cleaned` records whether cleanup has run. -/
structure GcState where
  strong : Nat
  cleaned : Bool
deriving DecidableEq, Repr

/-- Steps of the deferred-GC protocol: a request drops its reference; the
GC task polls while the weak reference still upgrades (strong count
positive) and merely sleeps; once upgrade fails (strong count zero) it
invokes cleanup. -/
inductive GcStep : GcState → GcState → Prop
  | dropHandle (s : Nat) (c : Bool) : GcStep ⟨s + 1, c⟩ ⟨s, c⟩
  | pollBusy (s : Nat) (c : Bool) : GcStep ⟨s + 1, c⟩ ⟨s + 1, c⟩
  | pollCleanup : GcStep ⟨0, false⟩ ⟨0, true⟩

/-- Reachability from the post-swap state: `k` requests hold the superseded
handle, nothing cleaned yet. -/
def GcReachable (k : Nat) (s : GcState) : Prop :=
  Relation.ReflTransGen GcStep ⟨k, false⟩ s

/-! ### TZif suffix extraction (`timezones.rs load_from_slice`) -/

/-- UTF-8 continuation byte (`0x80..=0xBF`). -/
def isContByte (b : Nat) : Bool := 128 ≤ b && b ≤ 191

/-- Strict UTF-8 decoding of a byte sequence (`str::from_utf8` semantics:
overlong encodings, surrogates and values above `0x10FFFF` are rejected). -/
def utf8Decode : List Nat → Option (List Char)
  | [] => some []
  | b1 :: t1 =>
    if b1 ≤ 127 then (utf8Decode t1).map (fun cs => Char.ofNat b1 :: cs)
    else if 194 ≤ b1 && b1 ≤ 223 then
      match t1 with
      | b2 :: t2 =>
        if isContByte b2 then
          (utf8Decode t2).map (fun cs => Char.ofNat ((b1 - 192) * 64 + (b2 - 128)) :: cs)
        else none
      | [] => none
    else if 224 ≤ b1 && b1 ≤ 239 then
      match t1 with
      | b2 :: b3 :: t3 =>
        if (if b1 = 224 then 160 ≤ b2 && b2 ≤ 191
            else if b1 = 237 then 128 ≤ b2 && b2 ≤ 159
            else isContByte b2) && isContByte b3 then
          (utf8Decode t3).map
            (fun cs => Char.ofNat ((b1 - 224) * 4096 + (b2 - 128) * 64 + (b3 - 128)) :: cs)
        else none
      | _ => none
    else if 240 ≤ b1 && b1 ≤ 244 then
      match t1 with
      | b2 :: b3 :: b4 :: t4 =>
        if (if b1 = 240 then 144 ≤ b2 && b2 ≤ 191
            else if b1 = 244 then 128 ≤ b2 && b2 ≤ 143
            else isContByte b2) && isContByte b3 && isContByte b4 then
          (utf8Decode t4).map
            (fun cs => Char.ofNat
              ((b1 - 240) * 262144 + (b2 - 128) * 4096 + (b3 - 128) * 64 + (b4 - 128)) :: cs)
        else none
      | _ => none
    else none

/-- Rust `char::is_whitespace`: the Unicode `White_Space` property. -/
def isRustWhitespace (c : Char) : Bool :=
  c.toNat = 9 || c.toNat = 10 || c.toNat = 11 || c.toNat = 12 || c.toNat = 13 ||
  c.toNat = 32 || c.toNat = 133 || c.toNat = 160 || c.toNat = 5760 ||
  (8192 ≤ c.toNat && c.toNat ≤ 8202) || c.toNat = 8232 || c.toNat = 8233 ||
  c.toNat = 8239 || c.toNat = 8287 || c.toNat = 12288

/-- Rust `str::trim`: remove leading and trailing whitespace. -/
def trimChars (cs : List Char) : List Char :=
  ((cs.dropWhile isRustWhitespace).reverse.dropWhile isRustWhitespace).reverse

/-- `Iterator::rposition(|c| *c == b'\n')`: index of the last `0x0A` byte. -/
def rpositionNl : List Nat → Option Nat
  | [] => none
  | b :: rest =>
    match rpositionNl rest with
    | some i => some (i + 1)
    | none => if b = 10 then some 0 else none

/-- The magic bytes `"TZif"`. -/
def tzifMagic : List Nat := [84, 90, 105, 102]

/-- `timezones.rs load_from_slice` on a file's bytes: for a `TZif` file,
strip one trailing newline, locate the last remaining newline, decode the
suffix after it as UTF-8, trim it, and return it when non-empty (the caller
records `zone-id → returned string`); in every other case nothing is
recorded. -/
def loadFromSlice (bytes : List Nat) : Option String :=
  if tzifMagic.isPrefixOf bytes then
    if bytes.getLast? = some 10 then
      match rpositionNl bytes.dropLast with
      | some i =>
        match utf8Decode (bytes.dropLast.drop (i + 1)) with
        | some cs =>
          if (trimChars cs).isEmpty then none else some (String.mk (trimChars cs))
        | none => none
      | none => none
    else none
  else none

end GeoIp

namespace GeoIp

/-! ### Digit lemmas -/

theorem digitChar_isDigit : ∀ n, n < 10 → isDigitChar (digitChar n) = true := by decide

theorem digitVal_digitChar : ∀ n, n < 10 → digitVal (digitChar n) = n := by decide

theorem pad2_all_digits (n : Nat) : (pad2 n).all isDigitChar = true := by
  simp only [pad2, List.all_cons, List.all_nil, Bool.and_true]
  rw [digitChar_isDigit _ (Nat.mod_lt _ (by omega)),
    digitChar_isDigit _ (Nat.mod_lt _ (by omega))]
  rfl

theorem pad4_all_digits (n : Nat) : (pad4 n).all isDigitChar = true := by
  simp only [pad4, List.all_cons, List.all_nil, Bool.and_true]
  rw [digitChar_isDigit _ (Nat.mod_lt _ (by omega)),
    digitChar_isDigit _ (Nat.mod_lt _ (by omega)),
    digitChar_isDigit _ (Nat.mod_lt _ (by omega)),
    digitChar_isDigit _ (Nat.mod_lt _ (by omega))]
  rfl

theorem formatTimestamp_length (dt : UtcDateTime) : (formatTimestamp dt).length = 14 := by
  simp [formatTimestamp, pad4, pad2]

theorem formatTimestamp_all_digits (dt : UtcDateTime) :
    (formatTimestamp dt).all isDigitChar = true := by
  simp only [formatTimestamp, List.all_append]
  rw [pad4_all_digits, pad2_all_digits, pad2_all_digits, pad2_all_digits,
    pad2_all_digits, pad2_all_digits]
  rfl

theorem daysInMonth_le (y m : Nat) : daysInMonth y m ≤ 31 := by
  unfold daysInMonth
  split
  · split <;> omega
  · split <;> omega

theorem parse_format_roundtrip (dt : UtcDateTime) (hv : dt.isValid = true)
    (hy : dt.year ≤ 9999) : parseTimestamp (formatTimestamp dt) = some dt := by
  obtain ⟨y, mo, d, h, mi, s⟩ := dt
  have hy9 : y ≤ 9999 := hy
  clear hy
  have hb := hv
  simp only [UtcDateTime.isValid, Bool.and_eq_true, decide_eq_true_eq] at hb
  have hd31 : d ≤ 31 := le_trans hb.1.1.1.2 (daysInMonth_le y mo)
  have e4 : ∀ n, n % 10 < 10 := fun n => Nat.mod_lt _ (by omega)
  simp only [formatTimestamp, pad4, pad2, List.cons_append, List.nil_append,
    parseTimestamp, List.all_cons, List.all_nil, Bool.and_true]
  rw [digitChar_isDigit _ (e4 _), digitChar_isDigit _ (e4 _), digitChar_isDigit _ (e4 _),
    digitChar_isDigit _ (e4 _), digitChar_isDigit _ (e4 _), digitChar_isDigit _ (e4 _),
    digitChar_isDigit _ (e4 _), digitChar_isDigit _ (e4 _), digitChar_isDigit _ (e4 _),
    digitChar_isDigit _ (e4 _), digitChar_isDigit _ (e4 _), digitChar_isDigit _ (e4 _),
    digitChar_isDigit _ (e4 _), digitChar_isDigit _ (e4 _)]
  simp only [Bool.and_self, if_true]
  rw [digitVal_digitChar _ (e4 _), digitVal_digitChar _ (e4 _), digitVal_digitChar _ (e4 _),
    digitVal_digitChar _ (e4 _), digitVal_digitChar _ (e4 _), digitVal_digitChar _ (e4 _),
    digitVal_digitChar _ (e4 _), digitVal_digitChar _ (e4 _), digitVal_digitChar _ (e4 _),
    digitVal_digitChar _ (e4 _), digitVal_digitChar _ (e4 _), digitVal_digitChar _ (e4 _),
    digitVal_digitChar _ (e4 _), digitVal_digitChar _ (e4 _)]
  have ey : ((y / 1000 % 10 * 10 + y / 100 % 10) * 10 + y / 10 % 10) * 10 + y % 10 = y := by
    omega
  have emo : mo / 10 % 10 * 10 + mo % 10 = mo := by omega
  have ed : d / 10 % 10 * 10 + d % 10 = d := by omega
  have eh : h / 10 % 10 * 10 + h % 10 = h := by omega
  have emi : mi / 10 % 10 * 10 + mi % 10 = mi := by omega
  have es : s / 10 % 10 * 10 + s % 10 = s := by omega
  rw [ey, emo, ed, eh, emi, es, if_pos hv]

end GeoIp

namespace GeoIp

/-! ### Filename matcher lemmas -/

theorem matchTagTsRev_eq (ts tag : List Char) (hlen : ts.length = 14)
    (hdig : ts.all isDigitChar = true) (htag0 : tag ≠ [])
    (htag : tag.all isTagChar = true) :
    matchTagTsRev (ts.reverse ++ '-' :: tag.reverse) = some (tag.reverse, ts.reverse) := by
  have hrlen : ts.reverse.length = 14 := by rw [List.length_reverse]; exact hlen
  unfold matchTagTsRev
  rw [List.take_left' hrlen, List.drop_left' hrlen]
  have h1 : ts.reverse.all isDigitChar = true := by rw [List.all_reverse]; exact hdig
  have h2 : tag.reverse.all isTagChar = true := by rw [List.all_reverse]; exact htag
  have h3 : tag.reverse.isEmpty = false := by simp [List.isEmpty_iff, htag0]
  simp [hrlen, h1, h2, h3]

theorem matchArchiveName_canonical (tag : String) (ts : List Char) (hlen : ts.length = 14)
    (hdig : ts.all isDigitChar = true) (htag0 : tag.data ≠ [])
    (htag : tag.data.all isTagChar = true) :
    matchArchiveName (tag ++ "-" ++ String.mk ts ++ ".tar.gz") = some (tag, String.mk ts) := by
  have hdata : (tag ++ "-" ++ String.mk ts ++ ".tar.gz").data.reverse =
      'z' :: 'g' :: '.' :: 'r' :: 'a' :: 't' :: '.' :: (ts.reverse ++ '-' :: tag.data.reverse) := by
    simp [String.data_append, List.reverse_append]
  unfold matchArchiveName
  rw [hdata]
  have hred : matchArchiveNameRev
      ('z' :: 'g' :: '.' :: 'r' :: 'a' :: 't' :: '.' :: (ts.reverse ++ '-' :: tag.data.reverse)) =
      matchTagTsRev (ts.reverse ++ '-' :: tag.data.reverse) := rfl
  rw [hred, matchTagTsRev_eq ts tag.data hlen hdig htag0 htag]
  simp

/-- Claim C2: the canonical archive filename `<tag>-<mtime %Y%m%d%H%M%S>.tar.gz`
round-trips through the discovery pattern: the regex recovers the tag and the
byte-equal embedded timestamp, and parsing the timestamp recovers the mtime. -/
theorem archive_filename_roundtrip (tag : String) (dt : UtcDateTime)
    (htag0 : tag.data ≠ []) (htag : tag.data.all isTagChar = true)
    (hv : dt.isValid = true) (hy : dt.year ≤ 9999) :
    matchArchiveName (tag ++ "-" ++ String.mk (formatTimestamp dt) ++ ".tar.gz") =
      some (tag, String.mk (formatTimestamp dt)) ∧
    archiveInfoFromFileName (tag ++ "-" ++ String.mk (formatTimestamp dt) ++ ".tar.gz") =
      some (tag, dt) := by
  have hm := matchArchiveName_canonical tag (formatTimestamp dt)
    (formatTimestamp_length dt) (formatTimestamp_all_digits dt) htag0 htag
  refine ⟨hm, ?_⟩
  unfold archiveInfoFromFileName
  rw [hm]
  show (parseTimestamp (formatTimestamp dt)).map _ = _
  rw [parse_format_roundtrip dt hv hy]
  rfl

/-- Witness for `archive_filename_roundtrip` at the spec's example
`GeoLite2-City-20240201000000.tar.gz`. -/
theorem archive_filename_roundtrip_witness :
    archiveInfoFromFileName "GeoLite2-City-20240201000000.tar.gz" =
      some ("GeoLite2-City", ⟨2024, 2, 1, 0, 0, 0⟩) := by
  have h := (archive_filename_roundtrip "GeoLite2-City" ⟨2024, 2, 1, 0, 0, 0⟩
    (by decide) (by decide) (by decide) (by decide)).2
  exact h

end GeoIp

namespace GeoIp

/-! ### Refresher fast-skip and idempotence (claim C3) -/

theorem refreshArchive_skip (info : ArchiveFileInfo) (tag : String) (now : UtcDateTime)
    (iv : Int) (resp : ArchiveHttpResponse)
    (h : now.toEpochSecs - info.utime.toEpochSecs < iv) :
    refreshArchive (some info) tag now iv resp = ⟨false, none, .ok none, some info⟩ := by
  simp [refreshArchive, h]

/-- Claim C3: with a current version fresher than `min_interval`, refresh
returns `None` without any network call and leaves the index unchanged; and
after a refresh that did reach the network and returned `Ok` (with `304`
only ever answering a conditional request, i.e. one with a current version),
a second refresh within `min_interval` of the first is a no-network no-op,
so the pair issues exactly one network call and at most one new version. -/
theorem refresh_fast_skip_idempotent :
    (∀ (info : ArchiveFileInfo) (tag : String) (now : UtcDateTime) (iv : Int)
        (resp : ArchiveHttpResponse),
      now.toEpochSecs - info.utime.toEpochSecs < iv →
      refreshArchive (some info) tag now iv resp =
        ⟨false, none, .ok none, some info⟩) ∧
    (∀ (st : Option ArchiveFileInfo) (tag : String) (t1 t2 : UtcDateTime) (iv : Int)
        (r1 r2 : ArchiveHttpResponse),
      (refreshArchive st tag t1 iv r1).networkCalled = true →
      (∃ v, (refreshArchive st tag t1 iv r1).result = .ok v) →
      (∀ lm len, r1 = .status 304 lm len → st ≠ none) →
      t1.toEpochSecs ≤ t2.toEpochSecs →
      t2.toEpochSecs - t1.toEpochSecs < iv →
      refreshArchive (refreshArchive st tag t1 iv r1).archState tag t2 iv r2 =
        ⟨false, none, .ok none, (refreshArchive st tag t1 iv r1).archState⟩) := by
  constructor
  · exact fun info tag now iv resp h => refreshArchive_skip info tag now iv resp h
  · intro st tag t1 t2 iv r1 r2 hcall hok h304 hle hwin
    match st with
    | none =>
      match r1 with
      | .transportErr m =>
        obtain ⟨v, hv⟩ := hok
        simp [refreshArchive, refreshArchiveNet] at hv
      | .status code lm len =>
        by_cases herr : 400 ≤ code ∧ code ≤ 599
        · obtain ⟨v, hv⟩ := hok
          simp [refreshArchive, refreshArchiveNet, herr] at hv
        · by_cases h304c : code = 304
          · exact absurd rfl (h304 lm len (by rw [h304c]))
          · have hstate : (refreshArchive none tag t1 iv (.status code lm len)).archState =
                some { tag := tag,
                       path := tag ++ "-" ++ String.mk (formatTimestamp (lm.getD t1)) ++ ".tar.gz",
                       mtime := lm.getD t1, utime := t1 } := by
              simp [refreshArchive, refreshArchiveNet, herr, h304c]
            rw [hstate]
            exact refreshArchive_skip _ _ _ _ _ (by simpa using hwin)
    | some info =>
      by_cases hskip : t1.toEpochSecs - info.utime.toEpochSecs < iv
      · rw [refreshArchive_skip info tag t1 iv r1 hskip] at hcall
        simp at hcall
      · have hnet : refreshArchive (some info) tag t1 iv r1 =
            refreshArchiveNet (some info) tag t1 (some (fmtHttpDate info.mtime)) r1 := by
          simp [refreshArchive, hskip]
        rw [hnet] at hok ⊢
        match r1 with
        | .transportErr m =>
          obtain ⟨v, hv⟩ := hok
          simp [refreshArchiveNet] at hv
        | .status code lm len =>
          by_cases herr : 400 ≤ code ∧ code ≤ 599
          · obtain ⟨v, hv⟩ := hok
            simp [refreshArchiveNet, herr] at hv
          · by_cases h304c : code = 304
            · by_cases hbump : info.utime.toEpochSecs < t1.toEpochSecs
              · have hstate : (refreshArchiveNet (some info) tag t1
                    (some (fmtHttpDate info.mtime)) (.status code lm len)).archState =
                    some { info with utime := t1 } := by
                  simp [refreshArchiveNet, herr, h304c, hbump]
                rw [hstate]
                exact refreshArchive_skip _ _ _ _ _ (by simp; omega)
              · have hstate : (refreshArchiveNet (some info) tag t1
                    (some (fmtHttpDate info.mtime)) (.status code lm len)).archState =
                    some info := by
                  simp [refreshArchiveNet, herr, h304c, hbump]
                rw [hstate]
                exact refreshArchive_skip _ _ _ _ _ (by omega)
            · have hstate : (refreshArchiveNet (some info) tag t1
                  (some (fmtHttpDate info.mtime)) (.status code lm len)).archState =
                  some { tag := tag,
                         path := tag ++ "-" ++ String.mk (formatTimestamp (lm.getD t1)) ++ ".tar.gz",
                         mtime := lm.getD t1, utime := t1 } := by
                simp [refreshArchiveNet, herr, h304c]
              rw [hstate]
              exact refreshArchive_skip _ _ _ _ _ (by simpa using hwin)

end GeoIp

namespace GeoIp

/-- Witness for `refresh_fast_skip_idempotent`: a fresh version skips, and a
`200` refresh followed by a second refresh at the same instant re-skips. -/
theorem refresh_fast_skip_idempotent_witness :
    refreshArchive (some ⟨"GeoLite2-City", "GeoLite2-City-20240201000000.tar.gz",
        ⟨2024, 2, 1, 0, 0, 0⟩, ⟨2024, 4, 1, 0, 0, 0⟩⟩) "GeoLite2-City"
        ⟨2024, 4, 1, 0, 30, 0⟩ 3600 (.status 200 none 100) =
      ⟨false, none, .ok none, some ⟨"GeoLite2-City", "GeoLite2-City-20240201000000.tar.gz",
        ⟨2024, 2, 1, 0, 0, 0⟩, ⟨2024, 4, 1, 0, 0, 0⟩⟩⟩ ∧
    refreshArchive (refreshArchive none "GeoLite2-City" ⟨2024, 4, 1, 0, 0, 0⟩ 3600
        (.status 200 none 100)).archState "GeoLite2-City" ⟨2024, 4, 1, 0, 30, 0⟩ 3600
        (.status 200 none 100) =
      ⟨false, none, .ok none, (refreshArchive none "GeoLite2-City" ⟨2024, 4, 1, 0, 0, 0⟩ 3600
        (.status 200 none 100)).archState⟩ := by
  constructor
  · exact refresh_fast_skip_idempotent.1 _ _ _ _ _ (by decide)
  · exact refresh_fast_skip_idempotent.2 none "GeoLite2-City" ⟨2024, 4, 1, 0, 0, 0⟩
      ⟨2024, 4, 1, 0, 30, 0⟩ 3600 (.status 200 none 100) (.status 200 none 100)
      (by decide) ⟨_, rfl⟩ (by intro lm len h; simp at h) (by decide) (by decide)

end GeoIp

namespace GeoIp

/-! ### If-Modified-Since headers (claim C7) -/

theorem refreshArchiveNet_ims (current : Option ArchiveFileInfo) (tag : String)
    (now : UtcDateTime) (ims : Option String) (resp : ArchiveHttpResponse) :
    (refreshArchiveNet current tag now ims resp).imsHeader = ims := by
  cases resp with
  | transportErr m => rfl
  | status code lm len =>
    simp only [refreshArchiveNet]
    repeat' first | rfl | split

/-- Amended claim C7: when the fast skip does not apply and a current version
exists, `files.rs refresh_archive` sends `If-Modified-Since` with the
version's mtime as an HTTP-date, and none without a current version; the
per-edition updater's `maxmind.rs download` likewise sends the header
exactly when a current mtime is known, but renders it with chrono's
`to_rfc2822` (numeric `+0000` zone) rather than as an HTTP-date. -/
theorem ims_header_behavior :
    (∀ (info : ArchiveFileInfo) (tag : String) (now : UtcDateTime) (iv : Int)
        (resp : ArchiveHttpResponse),
      ¬ (now.toEpochSecs - info.utime.toEpochSecs < iv) →
      (refreshArchive (some info) tag now iv resp).imsHeader =
        some (fmtHttpDate info.mtime)) ∧
    (∀ (tag : String) (now : UtcDateTime) (iv : Int) (resp : ArchiveHttpResponse),
      (refreshArchive none tag now iv resp).imsHeader = none) ∧
    (∀ (edition : String) (mt : UtcDateTime) (now : UtcDateTime)
        (fs : List (String × Nat)) (resp : MmHttpResponse),
      (mmDownload edition (some mt) now fs resp).imsHeader = some (toRfc2822Utc mt)) ∧
    (∀ (edition : String) (now : UtcDateTime) (fs : List (String × Nat))
        (resp : MmHttpResponse),
      (mmDownload edition none now fs resp).imsHeader = none) := by
  refine ⟨?_, ?_, ?_, ?_⟩
  · intro info tag now iv resp h
    simp [refreshArchive, h, refreshArchiveNet_ims]
  · intro tag now iv resp
    simp [refreshArchive, refreshArchiveNet_ims]
  · intro edition mt now fs resp
    cases resp with
    | transportErr m => rfl
    | status code lm es len =>
      simp only [mmDownload]
      repeat' first | rfl | split
  · intro edition now fs resp
    cases resp with
    | transportErr m => rfl
    | status code lm es len =>
      simp only [mmDownload]
      repeat' first | rfl | split

/-- Witness for `ims_header_behavior` at concrete inputs. -/
theorem ims_header_behavior_witness :
    (refreshArchive (some ⟨"tzdata", "tzdata-20240201000000.tar.gz",
        ⟨2024, 2, 1, 0, 0, 0⟩, ⟨2024, 2, 1, 0, 0, 0⟩⟩) "tzdata"
        ⟨2024, 4, 1, 0, 0, 0⟩ 3600 (.status 304 none 0)).imsHeader =
      some (fmtHttpDate ⟨2024, 2, 1, 0, 0, 0⟩) ∧
    (mmDownload "GeoLite2-City" (some ⟨2024, 2, 1, 0, 0, 0⟩) ⟨2024, 4, 1, 0, 0, 0⟩ []
        (.status 304 none none 0)).imsHeader = some (toRfc2822Utc ⟨2024, 2, 1, 0, 0, 0⟩) := by
  exact ⟨ims_header_behavior.1 _ _ _ _ _ (by decide),
    ims_header_behavior.2.2.1 _ _ _ _ _⟩

/-- Counterexample to claim C7 as stated: at a concrete state the
per-edition updater's GET carries `If-Modified-Since:
Mon, 01 Apr 2024 00:00:00 +0000`, chrono's RFC 2822 rendering, which is not
the HTTP-date rendering `Mon, 01 Apr 2024 00:00:00 GMT` of the same mtime. -/
theorem ims_header_not_http_date :
    (mmDownload "GeoLite2-City" (some ⟨2024, 4, 1, 0, 0, 0⟩) ⟨2024, 4, 2, 0, 0, 0⟩ []
        (.status 304 none none 0)).imsHeader =
      some "Mon, 01 Apr 2024 00:00:00 +0000" ∧
    fmtHttpDate ⟨2024, 4, 1, 0, 0, 0⟩ = "Mon, 01 Apr 2024 00:00:00 GMT" ∧
    (mmDownload "GeoLite2-City" (some ⟨2024, 4, 1, 0, 0, 0⟩) ⟨2024, 4, 2, 0, 0, 0⟩ []
        (.status 304 none none 0)).imsHeader ≠
      some (fmtHttpDate ⟨2024, 4, 1, 0, 0, 0⟩) := by
  refine ⟨?_, ?_, ?_⟩ <;> decide

end GeoIp

namespace GeoIp

/-! ### Filesystem map lemmas -/

theorem fsLookup_fsUpsert_self (fs : List (String × Nat)) (n : String) (s : Nat) :
    fsLookup (fsUpsert fs n s) n = some s := by
  simp [fsLookup, fsUpsert, List.find?_cons_of_pos]

theorem fsLookup_fsRemove_self (fs : List (String × Nat)) (n : String) :
    fsLookup (fsRemove fs n) n = none := by
  induction fs with
  | nil => rfl
  | cons f t ih =>
    by_cases h : f.1 = n
    · simp only [fsRemove, List.filter_cons, h, bne_self_eq_false]
      exact ih
    · simp only [fsRemove, List.filter_cons, bne_iff_ne, ne_eq, h, not_false_eq_true,
        if_true, fsLookup, List.find?_cons_of_neg, beq_iff_eq]
      exact ih

end GeoIp

namespace GeoIp

/-! ### Update failure isolation (claim C6) -/

/-- Claim C6: when the freshly extracted mmdb fails to open via mmap, the
update deletes the bad mmdb, returns the error, leaves every reader slot
(in particular the edition's previously published reader) unchanged, and the
`update_all` wrapper records the error message in the edition's error slot. -/
theorem update_open_failure_isolated (editions : List String) (st : MmState)
    (edition : String) (now : UtcDateTime) (iv : Int)
    (lm : Option UtcDateTime) (es : List TarEntry) (len : Nat) (e : TarEntry)
    (msg : String) (openMmap : String → Except String MmReaderMeta)
    (hconf : edition ∈ editions)
    (hfind : findMmdbEntry es = some e)
    (hopen : openMmap (makeMmdbName edition (lm.getD now)) = .error msg)
    (hstale : ∀ mt, getEditionMtime st edition = some mt →
      iv ≤ now.toEpochSecs - mt.toEpochSecs) :
    (mmUpdate editions st edition now (.status 200 lm (some es) len) openMmap).2 =
      .error (.maxMindDb msg) ∧
    (mmUpdate editions st edition now (.status 200 lm (some es) len) openMmap).1.readers =
      st.readers ∧
    fsLookup
      (mmUpdate editions st edition now (.status 200 lm (some es) len) openMmap).1.fsFiles
      (makeMmdbName edition (lm.getD now)) = none ∧
    (mmUpdateAllStep editions st edition now iv (.status 200 lm (some es) len)
        openMmap).errors edition = some msg ∧
    (mmUpdateAllStep editions st edition now iv (.status 200 lm (some es) len)
        openMmap).readers = st.readers := by
  have hdl : mmDownload edition (getEditionMtime st edition) now st.fsFiles
      (.status 200 lm (some es) len) =
      ⟨(getEditionMtime st edition).map toRfc2822Utc,
        .ok (some (makeMmdbName edition (lm.getD now))),
        fsUpsert (fsUpsert st.fsFiles (makeArchiveName edition (lm.getD now)) len)
          (makeMmdbName edition (lm.getD now)) e.size⟩ := by
    simp [mmDownload, hfind]
  have hupd : mmUpdate editions st edition now (.status 200 lm (some es) len) openMmap =
      ({ st with fsFiles := (fsRemove
          (fsUpsert (fsUpsert st.fsFiles (makeArchiveName edition (lm.getD now)) len)
            (makeMmdbName edition (lm.getD now)) e.size)
          (makeMmdbName edition (lm.getD now))) },
        .error (.maxMindDb msg)) := by
    simp only [mmUpdate, hconf, if_true, hdl, fsLookup_fsUpsert_self, hopen]
  have hskip : (match getEditionMtime st edition with
      | some mt => decide (now.toEpochSecs - mt.toEpochSecs < iv)
      | none => false) = false := by
    cases hmt : getEditionMtime st edition with
    | none => rfl
    | some mt =>
      have := hstale mt hmt
      simp only [decide_eq_false_iff_not]
      omega
  have hall : mmUpdateAllStep editions st edition now iv
      (.status 200 lm (some es) len) openMmap =
      { readers := st.readers
        errors := fun e2 => if e2 = edition then some msg else st.errors e2
        fsFiles := (fsRemove
          (fsUpsert (fsUpsert st.fsFiles (makeArchiveName edition (lm.getD now)) len)
            (makeMmdbName edition (lm.getD now)) e.size)
          (makeMmdbName edition (lm.getD now))) } := by
    simp only [mmUpdateAllStep, hskip, Bool.false_eq_true, if_false, hupd]
    rfl
  refine ⟨by rw [hupd], by rw [hupd], ?_, ?_, ?_⟩
  · rw [hupd]
    exact fsLookup_fsRemove_self _ _
  · rw [hall]
    simp
  · rw [hall]

end GeoIp

namespace GeoIp

/-- Witness for `update_open_failure_isolated` at a concrete state with a
previously published reader. -/
theorem update_open_failure_isolated_witness :
    (mmUpdate ["GeoLite2-City"]
        ⟨fun e => if e = "GeoLite2-City" then
            some ⟨"GeoLite2-City-20240101000000.mmdb", ⟨"GeoLite2-City", 1704067200, ["en"]⟩,
              7, some 9⟩
          else none,
          fun _ => none,
          [("GeoLite2-City-20240101000000.mmdb", 7),
           ("GeoLite2-City-20240101000000.tar.gz", 9)]⟩
        "GeoLite2-City" ⟨2024, 4, 5, 0, 0, 0⟩
        (.status 200 (some ⟨2024, 4, 1, 0, 0, 0⟩)
          (some [⟨"GeoLite2-City_20240401/GeoLite2-City.mmdb", 11⟩]) 99)
        (fun _ => .error "Invalid node count")).2 =
      .error (.maxMindDb "Invalid node count") ∧
    (mmUpdateAllStep ["GeoLite2-City"]
        ⟨fun e => if e = "GeoLite2-City" then
            some ⟨"GeoLite2-City-20240101000000.mmdb", ⟨"GeoLite2-City", 1704067200, ["en"]⟩,
              7, some 9⟩
          else none,
          fun _ => none,
          [("GeoLite2-City-20240101000000.mmdb", 7),
           ("GeoLite2-City-20240101000000.tar.gz", 9)]⟩
        "GeoLite2-City" ⟨2024, 4, 5, 0, 0, 0⟩ 86400
        (.status 200 (some ⟨2024, 4, 1, 0, 0, 0⟩)
          (some [⟨"GeoLite2-City_20240401/GeoLite2-City.mmdb", 11⟩]) 99)
        (fun _ => .error "Invalid node count")).errors "GeoLite2-City" =
      some "Invalid node count" := by
  have h := update_open_failure_isolated ["GeoLite2-City"]
    ⟨fun e => if e = "GeoLite2-City" then
        some ⟨"GeoLite2-City-20240101000000.mmdb", ⟨"GeoLite2-City", 1704067200, ["en"]⟩,
          7, some 9⟩
      else none,
      fun _ => none,
      [("GeoLite2-City-20240101000000.mmdb", 7),
       ("GeoLite2-City-20240101000000.tar.gz", 9)]⟩
    "GeoLite2-City" ⟨2024, 4, 5, 0, 0, 0⟩ 86400 (some ⟨2024, 4, 1, 0, 0, 0⟩)
    [⟨"GeoLite2-City_20240401/GeoLite2-City.mmdb", 11⟩] 99
    ⟨"GeoLite2-City_20240401/GeoLite2-City.mmdb", 11⟩ "Invalid node count"
    (fun _ => .error "Invalid node count")
    (by decide) (by decide) rfl
    (by
      intro mt hmt
      have h3 : some (⟨2024, 1, 1, 0, 0, 0⟩ : UtcDateTime) = some mt :=
        Eq.trans (by decide) hmt
      have h4 : (⟨2024, 1, 1, 0, 0, 0⟩ : UtcDateTime) = mt := by injection h3
      rw [← h4]
      decide)
  exact ⟨h.1, h.2.2.2.1⟩

end GeoIp

namespace GeoIp

/-! ### Archive without an mmdb member (claim C10) -/

/-- Claim C10: when a `200` download yields an archive containing no tar
member with extension `mmdb`, extraction finds nothing, `download` returns
`None`, `update` completes without error and without touching any reader
slot, the `update_all` wrapper clears the edition's error slot, and the
downloaded `.tar.gz` remains installed under its canonical name. -/
theorem update_no_mmdb_member_ok (editions : List String) (st : MmState)
    (edition : String) (now : UtcDateTime) (iv : Int)
    (lm : Option UtcDateTime) (es : List TarEntry) (len : Nat)
    (openMmap : String → Except String MmReaderMeta)
    (hconf : edition ∈ editions)
    (hnone : findMmdbEntry es = none)
    (hstale : ∀ mt, getEditionMtime st edition = some mt →
      iv ≤ now.toEpochSecs - mt.toEpochSecs) :
    (mmDownload edition (getEditionMtime st edition) now st.fsFiles
      (.status 200 lm (some es) len)).result = .ok none ∧
    (mmUpdate editions st edition now (.status 200 lm (some es) len) openMmap).2 =
      .ok () ∧
    (mmUpdate editions st edition now (.status 200 lm (some es) len) openMmap).1.readers =
      st.readers ∧
    fsLookup
      (mmUpdate editions st edition now (.status 200 lm (some es) len) openMmap).1.fsFiles
      (makeArchiveName edition (lm.getD now)) = some len ∧
    (mmUpdateAllStep editions st edition now iv (.status 200 lm (some es) len)
        openMmap).errors edition = none ∧
    (mmUpdateAllStep editions st edition now iv (.status 200 lm (some es) len)
        openMmap).readers = st.readers := by
  have hdl : mmDownload edition (getEditionMtime st edition) now st.fsFiles
      (.status 200 lm (some es) len) =
      ⟨(getEditionMtime st edition).map toRfc2822Utc, .ok none,
        fsUpsert st.fsFiles (makeArchiveName edition (lm.getD now)) len⟩ := by
    simp [mmDownload, hnone]
  have hupd : mmUpdate editions st edition now (.status 200 lm (some es) len) openMmap =
      ({ st with fsFiles :=
          (fsUpsert st.fsFiles (makeArchiveName edition (lm.getD now)) len) },
        .ok ()) := by
    simp only [mmUpdate, hconf, if_true, hdl]
  have hskip : (match getEditionMtime st edition with
      | some mt => decide (now.toEpochSecs - mt.toEpochSecs < iv)
      | none => false) = false := by
    cases hmt : getEditionMtime st edition with
    | none => rfl
    | some mt =>
      have := hstale mt hmt
      simp only [decide_eq_false_iff_not]
      omega
  have hall : mmUpdateAllStep editions st edition now iv
      (.status 200 lm (some es) len) openMmap =
      { readers := st.readers
        errors := fun e2 => if e2 = edition then none else st.errors e2
        fsFiles := (fsUpsert st.fsFiles (makeArchiveName edition (lm.getD now)) len) } := by
    simp only [mmUpdateAllStep, hskip, Bool.false_eq_true, if_false, hupd]
  refine ⟨by rw [hdl], by rw [hupd], by rw [hupd], ?_, ?_, ?_⟩
  · rw [hupd]
    exact fsLookup_fsUpsert_self _ _ _
  · rw [hall]
    simp
  · rw [hall]

/-- Witness for `update_no_mmdb_member_ok`: a 200 download whose tar holds
only a text file, against a state with no published reader. -/
theorem update_no_mmdb_member_ok_witness :
    (mmUpdate ["GeoLite2-City"]
        ⟨fun _ => none, fun _ => some "old failure", []⟩
        "GeoLite2-City" ⟨2024, 4, 1, 0, 0, 0⟩
        (.status 200 (some ⟨2024, 4, 1, 0, 0, 0⟩) (some [⟨"COPYRIGHT.txt", 3⟩]) 55)
        (fun _ => .error "unused")).2 = .ok () ∧
    (mmUpdateAllStep ["GeoLite2-City"]
        ⟨fun _ => none, fun _ => some "old failure", []⟩
        "GeoLite2-City" ⟨2024, 4, 1, 0, 0, 0⟩ 86400
        (.status 200 (some ⟨2024, 4, 1, 0, 0, 0⟩) (some [⟨"COPYRIGHT.txt", 3⟩]) 55)
        (fun _ => .error "unused")).errors "GeoLite2-City" = none ∧
    fsLookup (mmUpdate ["GeoLite2-City"]
        ⟨fun _ => none, fun _ => some "old failure", []⟩
        "GeoLite2-City" ⟨2024, 4, 1, 0, 0, 0⟩
        (.status 200 (some ⟨2024, 4, 1, 0, 0, 0⟩) (some [⟨"COPYRIGHT.txt", 3⟩]) 55)
        (fun _ => .error "unused")).1.fsFiles "GeoLite2-City-20240401000000.tar.gz" =
      some 55 := by
  have h := update_no_mmdb_member_ok ["GeoLite2-City"]
    ⟨fun _ => none, fun _ => some "old failure", []⟩
    "GeoLite2-City" ⟨2024, 4, 1, 0, 0, 0⟩ 86400 (some ⟨2024, 4, 1, 0, 0, 0⟩)
    [⟨"COPYRIGHT.txt", 3⟩] 55 (fun _ => .error "unused")
    (by decide) (by decide)
    (by
      intro mt hmt
      rw [show getEditionMtime
        (⟨fun _ => none, fun _ => some "old failure", []⟩ : MmState) "GeoLite2-City" =
        none from rfl] at hmt
      exact Option.noConfusion hmt)
  refine ⟨h.2.1, h.2.2.2.2.1, ?_⟩
  have h4 := h.2.2.2.1
  have hname : makeArchiveName "GeoLite2-City"
      ((some (⟨2024, 4, 1, 0, 0, 0⟩ : UtcDateTime)).getD ⟨2024, 4, 1, 0, 0, 0⟩) =
      "GeoLite2-City-20240401000000.tar.gz" := by decide
  rw [hname] at h4
  exact h4

end GeoIp

namespace GeoIp

/-! ### Deferred GC safety (claim C1) -/

/-- Claim C1: in every state reachable after a supersession, cleanup has run
only if the superseded handle's strong reference count is zero (the spawned
task polls the weak reference and invokes cleanup only once it can no longer
be upgraded); consequently, while any request still holds the handle, its
backing file has not been deleted. -/
theorem gc_cleanup_only_after_refcount_zero (k : Nat) (s : GcState)
    (h : GcReachable k s) :
    (s.cleaned = true → s.strong = 0) ∧ (0 < s.strong → s.cleaned = false) := by
  induction h with
  | refl =>
    exact ⟨fun hc => absurd hc (by simp), fun _ => rfl⟩
  | tail hsteps hstep ih =>
    cases hstep with
    | dropHandle s c =>
      refine ⟨fun hc => ?_, fun hs => ?_⟩
      · have h2 : s + 1 = 0 := ih.1 hc
        omega
      · have hs2 : 0 < s := hs
        exact ih.2 (show 0 < s + 1 by omega)
    | pollBusy s c => exact ih
    | pollCleanup =>
      exact ⟨fun _ => rfl, fun h0 => absurd (show 0 < 0 from h0) (by omega)⟩

/-- Witness for `gc_cleanup_only_after_refcount_zero`: one in-flight holder,
file not yet deleted. -/
theorem gc_cleanup_only_after_refcount_zero_witness :
    GcReachable 1 ⟨1, false⟩ ∧ (⟨1, false⟩ : GcState).cleaned = false :=
  ⟨Relation.ReflTransGen.refl,
    (gc_cleanup_only_after_refcount_zero 1 ⟨1, false⟩ Relation.ReflTransGen.refl).2
      (by decide)⟩

/-! ### Cleanup of a superseded version (claim C5) -/

/-- Every survivor of `files.rs cleanup_archive` neither bears the
`<tag>-<mtime>` prefix nor is the archive itself. -/
theorem cleanupArchive_removes_prefixed (info : ArchiveFileInfo)
    (fs : List (String × Nat)) (f : String × Nat)
    (hmem : f ∈ cleanupArchive info fs) :
    strStartsWith f.1 (info.tag ++ "-" ++ String.mk (formatTimestamp info.mtime)) = false ∧
      f.1 ≠ info.path := by
  simp only [cleanupArchive, fsRemove, cleanupDataDir, List.mem_filter, Bool.or_eq_true,
    beq_iff_eq, Bool.not_eq_true', bne_iff_ne, ne_eq] at hmem
  obtain ⟨⟨_, hor⟩, hne⟩ := hmem
  refine ⟨?_, hne⟩
  rcases hor with h | h
  · exact absurd h hne
  · exact h

/-- Claim C5 (code bug): `maxmind.rs cleanup` computes the sibling archive
path with `with_added_extension("tar.gz")`, which appends after `.mmdb`
instead of replacing it, while `load` and `update` in the same file locate
the archive with `with_extension("tar.gz")`.  At the concrete superseded
version below, `maxmind.rs cleanup` removes the `.mmdb` but leaves the
actual `.tar.gz` on disk (it attempts the non-existent `.mmdb.tar.gz`),
whereas `files.rs cleanup_archive` on the same directory removes the pair as
the claim describes. -/
theorem mm_cleanup_leaves_archive :
    withAddedExtension "GeoLite2-City-20240101000000.mmdb" "tar.gz" =
      "GeoLite2-City-20240101000000.mmdb.tar.gz" ∧
    withExtension "GeoLite2-City-20240101000000.mmdb" "tar.gz" =
      "GeoLite2-City-20240101000000.tar.gz" ∧
    mmCleanup "GeoLite2-City-20240101000000.mmdb"
      [("GeoLite2-City-20240101000000.mmdb", 7),
       ("GeoLite2-City-20240101000000.tar.gz", 9)] =
      [("GeoLite2-City-20240101000000.tar.gz", 9)] ∧
    cleanupArchive ⟨"GeoLite2-City", "GeoLite2-City-20240101000000.tar.gz",
        ⟨2024, 1, 1, 0, 0, 0⟩, ⟨2024, 1, 1, 0, 0, 0⟩⟩
      [("GeoLite2-City-20240101000000.mmdb", 7),
       ("GeoLite2-City-20240101000000.tar.gz", 9)] = [] := by
  refine ⟨rfl, ?_, ?_, ?_⟩ <;> decide

end GeoIp

namespace GeoIp

/-! ### Startup discovery keeps the newest version per tag (claim C4) -/

theorem discoverStep_fst_none (acc : (String → Option ArchiveFileInfo) × List ArchiveFileInfo)
    (x : ArchiveFileInfo) (t : String) (hm : acc.1 x.tag = none) :
    (discoverStep acc x).1 t = if t = x.tag then some x else acc.1 t := by
  simp [discoverStep, hm]

theorem discoverStep_fst_lt (acc : (String → Option ArchiveFileInfo) × List ArchiveFileInfo)
    (x : ArchiveFileInfo) (t : String) (old : ArchiveFileInfo)
    (hm : acc.1 x.tag = some old) (hlt : old.mtime.toEpochSecs < x.mtime.toEpochSecs) :
    (discoverStep acc x).1 t = if t = x.tag then some x else acc.1 t := by
  simp [discoverStep, hm, hlt]

theorem discoverStep_fst_ge (acc : (String → Option ArchiveFileInfo) × List ArchiveFileInfo)
    (x : ArchiveFileInfo) (t : String) (old : ArchiveFileInfo)
    (hm : acc.1 x.tag = some old) (hge : ¬ old.mtime.toEpochSecs < x.mtime.toEpochSecs) :
    (discoverStep acc x).1 t = acc.1 t := by
  simp [discoverStep, hm, hge]

theorem discoverStep_snd_none (acc : (String → Option ArchiveFileInfo) × List ArchiveFileInfo)
    (x : ArchiveFileInfo) (hm : acc.1 x.tag = none) :
    (discoverStep acc x).2 = acc.2 := by
  simp [discoverStep, hm]

theorem discoverStep_snd_lt (acc : (String → Option ArchiveFileInfo) × List ArchiveFileInfo)
    (x : ArchiveFileInfo) (old : ArchiveFileInfo)
    (hm : acc.1 x.tag = some old) (hlt : old.mtime.toEpochSecs < x.mtime.toEpochSecs) :
    (discoverStep acc x).2 = old :: acc.2 := by
  simp [discoverStep, hm, hlt]

theorem discoverStep_snd_ge (acc : (String → Option ArchiveFileInfo) × List ArchiveFileInfo)
    (x : ArchiveFileInfo) (old : ArchiveFileInfo)
    (hm : acc.1 x.tag = some old) (hge : ¬ old.mtime.toEpochSecs < x.mtime.toEpochSecs) :
    (discoverStep acc x).2 = x :: acc.2 := by
  simp [discoverStep, hm, hge]

theorem discover_origin (entries : List ArchiveFileInfo)
    (acc : (String → Option ArchiveFileInfo) × List ArchiveFileInfo)
    (t : String) (e : ArchiveFileInfo)
    (h : (entries.foldl discoverStep acc).1 t = some e) :
    acc.1 t = some e ∨ (e ∈ entries ∧ e.tag = t) := by
  induction entries generalizing acc with
  | nil => exact Or.inl h
  | cons x xs ih =>
    rw [List.foldl_cons] at h
    rcases ih (discoverStep acc x) h with h1 | h1
    · have hcase : (discoverStep acc x).1 t = acc.1 t ∨
          (discoverStep acc x).1 t = if t = x.tag then some x else acc.1 t := by
        cases hm : acc.1 x.tag with
        | none => exact Or.inr (discoverStep_fst_none acc x t hm)
        | some old =>
          by_cases hlt : old.mtime.toEpochSecs < x.mtime.toEpochSecs
          · exact Or.inr (discoverStep_fst_lt acc x t old hm hlt)
          · exact Or.inl (discoverStep_fst_ge acc x t old hm hlt)
      rcases hcase with h2 | h2
      · rw [h2] at h1
        exact Or.inl h1
      · rw [h2] at h1
        by_cases ht : t = x.tag
        · rw [if_pos ht] at h1
          injection h1 with h3
          exact Or.inr ⟨by rw [← h3]; exact List.mem_cons_self x xs, by rw [← h3, ht]⟩
        · rw [if_neg ht] at h1
          exact Or.inl h1
    · exact Or.inr ⟨List.mem_cons_of_mem x h1.1, h1.2⟩

theorem discover_mono (entries : List ArchiveFileInfo)
    (acc : (String → Option ArchiveFileInfo) × List ArchiveFileInfo)
    (t : String) (e0 : ArchiveFileInfo) (h : acc.1 t = some e0) :
    ∃ e, (entries.foldl discoverStep acc).1 t = some e ∧
      e0.mtime.toEpochSecs ≤ e.mtime.toEpochSecs := by
  induction entries generalizing acc e0 with
  | nil => exact ⟨e0, h, le_refl _⟩
  | cons x xs ih =>
    rw [List.foldl_cons]
    have hstep : ∃ e1, (discoverStep acc x).1 t = some e1 ∧
        e0.mtime.toEpochSecs ≤ e1.mtime.toEpochSecs := by
      by_cases ht : t = x.tag
      · have hm : acc.1 x.tag = some e0 := by rw [← ht]; exact h
        by_cases hlt : e0.mtime.toEpochSecs < x.mtime.toEpochSecs
        · exact ⟨x, by rw [discoverStep_fst_lt acc x t e0 hm hlt, if_pos ht], by omega⟩
        · exact ⟨e0, by rw [discoverStep_fst_ge acc x t e0 hm hlt]; exact h, le_refl _⟩
      · have hsame : (discoverStep acc x).1 t = acc.1 t := by
          cases hm : acc.1 x.tag with
          | none => rw [discoverStep_fst_none acc x t hm, if_neg ht]
          | some old =>
            by_cases hlt : old.mtime.toEpochSecs < x.mtime.toEpochSecs
            · rw [discoverStep_fst_lt acc x t old hm hlt, if_neg ht]
            · exact discoverStep_fst_ge acc x t old hm hlt
        exact ⟨e0, by rw [hsame]; exact h, le_refl _⟩
    obtain ⟨e1, he1, hle1⟩ := hstep
    obtain ⟨e, he, hle⟩ := ih (discoverStep acc x) e1 he1
    exact ⟨e, he, by omega⟩

theorem discover_max (entries : List ArchiveFileInfo)
    (acc : (String → Option ArchiveFileInfo) × List ArchiveFileInfo)
    (t : String) (e : ArchiveFileInfo)
    (h : (entries.foldl discoverStep acc).1 t = some e) :
    ∀ e2 ∈ entries, e2.tag = t → e2.mtime.toEpochSecs ≤ e.mtime.toEpochSecs := by
  induction entries generalizing acc with
  | nil =>
    intro e2 h2
    cases h2
  | cons x xs ih =>
    rw [List.foldl_cons] at h
    intro e2 h2 htag
    rcases List.mem_cons.mp h2 with heq | hxs
    · have hxt : t = x.tag := by rw [← htag, heq]
      have hstep : ∃ e1, (discoverStep acc x).1 t = some e1 ∧
          x.mtime.toEpochSecs ≤ e1.mtime.toEpochSecs := by
        cases hm : acc.1 x.tag with
        | none =>
          exact ⟨x, by rw [discoverStep_fst_none acc x t hm, if_pos hxt], le_refl _⟩
        | some old =>
          by_cases hlt : old.mtime.toEpochSecs < x.mtime.toEpochSecs
          · exact ⟨x, by rw [discoverStep_fst_lt acc x t old hm hlt, if_pos hxt], le_refl _⟩
          · exact ⟨old, by rw [discoverStep_fst_ge acc x t old hm hlt, hxt]; exact hm,
              by omega⟩
      obtain ⟨e1, he1, hle1⟩ := hstep
      obtain ⟨e3, he3, hle3⟩ := discover_mono xs (discoverStep acc x) t e1 he1
      rw [h] at he3
      injection he3 with h4
      have h5 : e.mtime.toEpochSecs = e3.mtime.toEpochSecs := by rw [h4]
      rw [heq]
      omega
    · exact ih (discoverStep acc x) h e2 hxs htag

theorem discover_cleaned_mono (entries : List ArchiveFileInfo)
    (acc : (String → Option ArchiveFileInfo) × List ArchiveFileInfo)
    (e0 : ArchiveFileInfo) (h : e0 ∈ acc.2) :
    e0 ∈ (entries.foldl discoverStep acc).2 := by
  induction entries generalizing acc with
  | nil => exact h
  | cons x xs ih =>
    rw [List.foldl_cons]
    refine ih (discoverStep acc x) ?_
    cases hm : acc.1 x.tag with
    | none =>
      rw [discoverStep_snd_none acc x hm]
      exact h
    | some old =>
      by_cases hlt : old.mtime.toEpochSecs < x.mtime.toEpochSecs
      · rw [discoverStep_snd_lt acc x old hm hlt]
        exact List.mem_cons_of_mem old h
      · rw [discoverStep_snd_ge acc x old hm hlt]
        exact List.mem_cons_of_mem x h

theorem discover_kept_or_cleaned (entries : List ArchiveFileInfo)
    (acc : (String → Option ArchiveFileInfo) × List ArchiveFileInfo)
    (t : String) (e0 : ArchiveFileInfo) (h : acc.1 t = some e0) :
    (entries.foldl discoverStep acc).1 t = some e0 ∨
      e0 ∈ (entries.foldl discoverStep acc).2 := by
  induction entries generalizing acc with
  | nil => exact Or.inl h
  | cons x xs ih =>
    rw [List.foldl_cons]
    by_cases ht : t = x.tag
    · have hm : acc.1 x.tag = some e0 := by rw [← ht]; exact h
      by_cases hlt : e0.mtime.toEpochSecs < x.mtime.toEpochSecs
      · right
        refine discover_cleaned_mono xs (discoverStep acc x) e0 ?_
        rw [discoverStep_snd_lt acc x e0 hm hlt]
        exact List.mem_cons_self e0 _
      · refine ih (discoverStep acc x) ?_
        rw [discoverStep_fst_ge acc x t e0 hm hlt]
        exact h
    · refine ih (discoverStep acc x) ?_
      have hsame : (discoverStep acc x).1 t = acc.1 t := by
        cases hm : acc.1 x.tag with
        | none => rw [discoverStep_fst_none acc x t hm, if_neg ht]
        | some old =>
          by_cases hlt : old.mtime.toEpochSecs < x.mtime.toEpochSecs
          · rw [discoverStep_fst_lt acc x t old hm hlt, if_neg ht]
          · exact discoverStep_fst_ge acc x t old hm hlt
      rw [hsame]
      exact h

theorem discover_each_settled (entries : List ArchiveFileInfo)
    (acc : (String → Option ArchiveFileInfo) × List ArchiveFileInfo) :
    ∀ e ∈ entries, ((entries.foldl discoverStep acc).1 e.tag = some e ∨
      e ∈ (entries.foldl discoverStep acc).2) ∧
      ∃ e3, (entries.foldl discoverStep acc).1 e.tag = some e3 := by
  induction entries generalizing acc with
  | nil =>
    intro e he
    cases he
  | cons x xs ih =>
    intro e he
    rw [List.foldl_cons]
    rcases List.mem_cons.mp he with heq | hxs
    · have hslot : ∃ e1, (discoverStep acc x).1 x.tag = some e1 ∧
          (e1 = x ∨ (discoverStep acc x).2 = x :: acc.2) := by
        cases hm : acc.1 x.tag with
        | none =>
          exact ⟨x, by rw [discoverStep_fst_none acc x x.tag hm, if_pos rfl], Or.inl rfl⟩
        | some old =>
          by_cases hlt : old.mtime.toEpochSecs < x.mtime.toEpochSecs
          · exact ⟨x, by rw [discoverStep_fst_lt acc x x.tag old hm hlt, if_pos rfl],
              Or.inl rfl⟩
          · exact ⟨old, by rw [discoverStep_fst_ge acc x x.tag old hm hlt]; exact hm,
              Or.inr (discoverStep_snd_ge acc x old hm hlt)⟩
      obtain ⟨e1, he1, hcase⟩ := hslot
      constructor
      · rcases hcase with heq1 | hsnd
        · rw [heq1] at he1
          rw [heq]
          exact discover_kept_or_cleaned xs (discoverStep acc x) x.tag x he1
        · right
          rw [heq]
          refine discover_cleaned_mono xs (discoverStep acc x) x ?_
          rw [hsnd]
          exact List.mem_cons_self x _
      · rw [heq]
        obtain ⟨e3, he3, _⟩ := discover_mono xs (discoverStep acc x) x.tag e1 he1
        exact ⟨e3, he3⟩
    · exact ih (discoverStep acc x) e hxs

/-- Claim C4: after startup discovery, the published index maps each
discovered tag to a single current version — one of the discovered versions
of that tag, with the greatest mtime among them — and every discovered
version that is not the published one was handed to `cleanup_archive`. -/
theorem startup_discovery_keeps_max (entries : List ArchiveFileInfo) :
    (∀ (t : String) (e : ArchiveFileInfo),
      (findAndCleanupArchives entries).1 t = some e →
      e ∈ entries ∧ e.tag = t ∧
        ∀ e2 ∈ entries, e2.tag = t → e2.mtime.toEpochSecs ≤ e.mtime.toEpochSecs) ∧
    (∀ e ∈ entries, (findAndCleanupArchives entries).1 e.tag = some e ∨
      e ∈ (findAndCleanupArchives entries).2) ∧
    (∀ e ∈ entries, ∃ e3, (findAndCleanupArchives entries).1 e.tag = some e3) := by
  refine ⟨?_, fun e he => (discover_each_settled entries ((fun _ => none), []) e he).1,
    fun e he => (discover_each_settled entries ((fun _ => none), []) e he).2⟩
  intro t e h
  rcases discover_origin entries ((fun _ => none), []) t e h with h1 | h1
  · exact Option.noConfusion h1
  · exact ⟨h1.1, h1.2, discover_max entries ((fun _ => none), []) t e h⟩

/-- Witness for `startup_discovery_keeps_max`: the spec's duplicate-tag
scenario with a 2024-01-01 and a 2024-02-01 archive of the same tag. -/
theorem startup_discovery_keeps_max_witness :
    (findAndCleanupArchives
        [⟨"GeoLite2-City", "GeoLite2-City-20240101000000.tar.gz",
          ⟨2024, 1, 1, 0, 0, 0⟩, ⟨2024, 1, 1, 0, 0, 0⟩⟩,
         ⟨"GeoLite2-City", "GeoLite2-City-20240201000000.tar.gz",
          ⟨2024, 2, 1, 0, 0, 0⟩, ⟨2024, 2, 1, 0, 0, 0⟩⟩]).1 "GeoLite2-City" =
      some ⟨"GeoLite2-City", "GeoLite2-City-20240201000000.tar.gz",
        ⟨2024, 2, 1, 0, 0, 0⟩, ⟨2024, 2, 1, 0, 0, 0⟩⟩ ∨
    (⟨"GeoLite2-City", "GeoLite2-City-20240201000000.tar.gz",
        ⟨2024, 2, 1, 0, 0, 0⟩, ⟨2024, 2, 1, 0, 0, 0⟩⟩ : ArchiveFileInfo) ∈
      (findAndCleanupArchives
        [⟨"GeoLite2-City", "GeoLite2-City-20240101000000.tar.gz",
          ⟨2024, 1, 1, 0, 0, 0⟩, ⟨2024, 1, 1, 0, 0, 0⟩⟩,
         ⟨"GeoLite2-City", "GeoLite2-City-20240201000000.tar.gz",
          ⟨2024, 2, 1, 0, 0, 0⟩, ⟨2024, 2, 1, 0, 0, 0⟩⟩]).2 :=
  (startup_discovery_keeps_max _).2.1
    ⟨"GeoLite2-City", "GeoLite2-City-20240201000000.tar.gz",
      ⟨2024, 2, 1, 0, 0, 0⟩, ⟨2024, 2, 1, 0, 0, 0⟩⟩ (by decide)

end GeoIp

namespace GeoIp

/-! ### Status surface (claim C8) -/

/-- Amended claim C8: `status()` emits one record per configured edition, in
order, whose fields are the edition name, the current reader's `build_epoch`
(as a datetime, when representable), its file and archive file sizes, and
the edition's error slot; an edition with no current reader reports the
reader-derived fields as empty.  No locales and no last-check time are part
of the record. -/
theorem status_fields (editions : List String) (st : MmState) :
    (mmStatus editions st).map (fun d => d.edition) = editions ∧
    (∀ (e : String) (r : MaxMindDbReader), st.readers e = some r →
      getEditionStatus st e =
        ⟨e, fromTimestampSecs r.meta.buildEpoch, some r.fileSize, r.archiveFileSize,
          st.errors e⟩) ∧
    (∀ e : String, st.readers e = none →
      getEditionStatus st e = ⟨e, none, none, none, st.errors e⟩) := by
  refine ⟨?_, ?_, ?_⟩
  · have hid : ∀ e, (getEditionStatus st e).edition = e := by
      intro e
      unfold getEditionStatus
      cases st.readers e <;> rfl
    rw [mmStatus, List.map_map]
    calc List.map ((fun d => d.edition) ∘ getEditionStatus st) editions
        = List.map id editions := List.map_congr_left (fun e _ => hid e)
      _ = editions := List.map_id editions
  · intro e r h
    unfold getEditionStatus
    rw [h]
  · intro e h
    unfold getEditionStatus
    rw [h]

/-- Witness for `status_fields` at a one-edition configuration. -/
theorem status_fields_witness :
    getEditionStatus
      ⟨fun _ => some ⟨"GeoLite2-City-20240101000000.mmdb",
          ⟨"GeoLite2-City", 1704067200, ["en"]⟩, 7, some 9⟩,
        fun _ => none, []⟩ "GeoLite2-City" =
      ⟨"GeoLite2-City", fromTimestampSecs 1704067200, some 7, some 9, none⟩ :=
  (status_fields ["GeoLite2-City"]
    ⟨fun _ => some ⟨"GeoLite2-City-20240101000000.mmdb",
        ⟨"GeoLite2-City", 1704067200, ["en"]⟩, 7, some 9⟩,
      fun _ => none, []⟩).2.1 "GeoLite2-City"
    ⟨"GeoLite2-City-20240101000000.mmdb", ⟨"GeoLite2-City", 1704067200, ["en"]⟩, 7, some 9⟩
    rfl

/-- Counterexample to claim C8 as stated: two states whose current readers
differ only in the metadata languages produce identical status records, so
the emitted record cannot contain the locales from the reader metadata (the
claim would force the two outputs to differ).  The record likewise has no
`last_update_check` field: `MaxMindService` never reads any `utime`. -/
theorem status_ignores_languages :
    getEditionStatus
      ⟨fun _ => some ⟨"GeoLite2-City-20240101000000.mmdb",
          ⟨"GeoLite2-City", 1704067200, ["en"]⟩, 7, some 9⟩,
        fun _ => none, []⟩ "GeoLite2-City" =
    getEditionStatus
      ⟨fun _ => some ⟨"GeoLite2-City-20240101000000.mmdb",
          ⟨"GeoLite2-City", 1704067200, ["en", "de"]⟩, 7, some 9⟩,
        fun _ => none, []⟩ "GeoLite2-City" ∧
    (["en"] : List String) ≠ ["en", "de"] := by
  constructor
  · decide
  · decide

end GeoIp

namespace GeoIp

/-! ### TZif POSIX TZ extraction (claim C9) -/

theorem rpositionNl_none_iff (cs : List Nat) :
    rpositionNl cs = none ↔ 10 ∉ cs := by
  induction cs with
  | nil => simp [rpositionNl]
  | cons b t ih =>
    unfold rpositionNl
    cases hr : rpositionNl t with
    | some i =>
      simp only []
      constructor
      · intro h
        cases h
      · intro h
        exact absurd (ih.mpr (fun hm => h (List.mem_cons_of_mem b hm))) (by rw [hr]; simp)
    | none =>
      have ht : 10 ∉ t := ih.mp hr
      by_cases hb : b = 10
      · simp [hb]
      · simp only [if_neg hb]
        constructor
        · intro _ hm
          rcases List.mem_cons.mp hm with h9 | h9
          · exact hb h9.symm
          · exact ht h9
        · intro _
          trivial

theorem rpositionNl_append (pre suf : List Nat) (h : 10 ∉ suf) :
    rpositionNl (pre ++ 10 :: suf) = some pre.length := by
  induction pre with
  | nil =>
    show rpositionNl (10 :: suf) = some 0
    unfold rpositionNl
    rw [(rpositionNl_none_iff suf).mpr h]
    simp
  | cons p ps ih =>
    show rpositionNl (p :: (ps ++ 10 :: suf)) = some (ps.length + 1)
    unfold rpositionNl
    rw [ih]

theorem rpositionNl_decomp (cs : List Nat) (i : Nat) (h : rpositionNl cs = some i) :
    ∃ pre suf, cs = pre ++ 10 :: suf ∧ pre.length = i ∧ 10 ∉ suf := by
  induction cs generalizing i with
  | nil => cases h
  | cons b t ih =>
    unfold rpositionNl at h
    cases hr : rpositionNl t with
    | some j =>
      rw [hr] at h
      injection h with h2
      obtain ⟨pre, suf, hdec, hlen, hns⟩ := ih j hr
      exact ⟨b :: pre, suf, by rw [hdec]; rfl, by rw [← h2]; simp [hlen], hns⟩
    | none =>
      rw [hr] at h
      by_cases hb : b = 10
      · rw [if_pos hb] at h
        injection h with h2
        exact ⟨[], t, by rw [hb]; rfl, h2, (rpositionNl_none_iff t).mp hr⟩
      · rw [if_neg hb] at h
        cases h

/-- Amended claim C9: the timezone extraction records an entry exactly when
the bytes start with `TZif`, end with a newline, and after stripping that
single trailing newline the suffix following the last remaining newline is
valid UTF-8 and non-empty after trimming; the recorded POSIX TZ string is
that suffix with leading and trailing whitespace trimmed (not the raw
suffix). -/
theorem tzif_record_iff :
    (∀ (bytes : List Nat) (v : String), loadFromSlice bytes = some v →
      tzifMagic.isPrefixOf bytes = true ∧
      ∃ (pre suf : List Nat) (chars : List Char),
        bytes = pre ++ 10 :: suf ++ [10] ∧ 10 ∉ suf ∧
        utf8Decode suf = some chars ∧ (trimChars chars).isEmpty = false ∧
        v = String.mk (trimChars chars)) ∧
    (∀ (pre suf : List Nat) (chars : List Char),
      tzifMagic.isPrefixOf (pre ++ 10 :: suf ++ [10]) = true → 10 ∉ suf →
      utf8Decode suf = some chars →
      loadFromSlice (pre ++ 10 :: suf ++ [10]) =
        (if (trimChars chars).isEmpty then none
         else some (String.mk (trimChars chars)))) := by
  constructor
  · intro bytes v h
    unfold loadFromSlice at h
    by_cases h1 : tzifMagic.isPrefixOf bytes
    · rw [if_pos h1] at h
      by_cases h2 : bytes.getLast? = some 10
      · rw [if_pos h2] at h
        cases hr : rpositionNl bytes.dropLast with
        | none =>
          rw [hr] at h
          simp at h
        | some i =>
          rw [hr] at h
          simp only [] at h
          cases hdec : utf8Decode (bytes.dropLast.drop (i + 1)) with
          | none =>
            rw [hdec] at h
            simp at h
          | some cs =>
            rw [hdec] at h
            simp only [] at h
            by_cases hemp : (trimChars cs).isEmpty
            · rw [if_pos hemp] at h
              cases h
            · rw [if_neg hemp] at h
              injection h with h3
              obtain ⟨pre, suf, hdc, hlen, hns⟩ := rpositionNl_decomp _ i hr
              have hbytes : bytes = pre ++ 10 :: suf ++ [10] := by
                have hne : bytes ≠ [] := by
                  intro h0
                  rw [h0] at h2
                  cases h2
                have h5 := List.dropLast_append_getLast? 10 h2
                rw [hdc] at h5
                rw [← h5]
              have hsuf : bytes.dropLast.drop (i + 1) = suf := by
                rw [hdc, ← hlen]
                have : pre ++ 10 :: suf = (pre ++ [10]) ++ suf := by simp
                rw [this]
                exact List.drop_left' (by simp)
              rw [hsuf] at hdec
              exact ⟨h1, pre, suf, cs, hbytes, hns, hdec,
                Bool.eq_false_iff.mpr hemp, h3.symm⟩
      · rw [if_neg h2] at h
        cases h
    · rw [if_neg h1] at h
      cases h
  · intro pre suf chars h1 hns hdec
    unfold loadFromSlice
    rw [if_pos h1]
    have hb : (pre ++ 10 :: suf ++ [10]) = (pre ++ 10 :: suf) ++ [10] := by simp
    have h2 : (pre ++ 10 :: suf ++ [10]).getLast? = some 10 := by
      rw [hb]
      exact List.getLast?_concat _
    rw [if_pos h2]
    have h3 : (pre ++ 10 :: suf ++ [10]).dropLast = pre ++ 10 :: suf := by
      rw [hb]
      exact List.dropLast_concat
    rw [h3, rpositionNl_append pre suf hns]
    have h4 : (pre ++ 10 :: suf).drop (pre.length + 1) = suf := by
      have : pre ++ 10 :: suf = (pre ++ [10]) ++ suf := by simp
      rw [this]
      exact List.drop_left' (by simp)
    simp only []
    rw [h4, hdec]

/-- Witness for `tzif_record_iff` at the bytes of `"TZif\nCET-1\n"`. -/
theorem tzif_record_iff_witness :
    loadFromSlice [84, 90, 105, 102, 10, 67, 69, 84, 45, 49, 10] = some "CET-1" := by
  have h := tzif_record_iff.2 [84, 90, 105, 102] [67, 69, 84, 45, 49]
    ("CET-1".data) (by decide) (by decide) (by decide)
  rw [show ([84, 90, 105, 102] ++ 10 :: [67, 69, 84, 45, 49] ++ [10] : List Nat) =
    [84, 90, 105, 102, 10, 67, 69, 84, 45, 49, 10] from rfl] at h
  rw [h]
  decide

/-- Counterexample to claim C9 as stated: on the bytes of `"TZif\nUTC0 \n"`
(trailing space before the final newline) the suffix after the last
remaining newline decodes to `"UTC0 "`, yet the recorded string is the
trimmed `"UTC0"`, not that suffix. -/
theorem tzif_records_trimmed_not_suffix :
    loadFromSlice [84, 90, 105, 102, 10, 85, 84, 67, 48, 32, 10] = some "UTC0" ∧
    utf8Decode [85, 84, 67, 48, 32] = some ("UTC0 ".data) ∧
    ("UTC0" : String) ≠ "UTC0 " := by
  refine ⟨by decide, by decide, by decide⟩

end GeoIp
